import Mathlib

/-!
# Verification of the Revora authentication and account-security subsystem

A shallow embedding, in Lean 4, of the security-relevant parts of the
Revora backend (TypeScript), together with proofs about the embedded
definitions.

Modelling conventions used throughout:

* JavaScript strings and Node `Buffer`s are modelled as byte lists
  (`Str := List Nat`); string literals appearing in the source become the
  lists of their ASCII codes (`strBytes`).  All embedded operations
  (splitting, trimming, lower-casing, base64, JSON framing) act at this
  byte level exactly as the source acts on strings.
* Wall-clock instants (`Date.now()`, `new Date()`, SQL `NOW()`) are a
  `Nat` parameter `now` threaded to each operation.
* External cryptographic primitives (`createHmac(...).digest()`,
  `createHash('sha256').digest('hex')`, `scrypt`) are opaque library
  calls in the source; they enter the embedding as explicit function
  parameters, so every theorem quantifies over the primitive.
* Fallible code (`throw`) is modelled with `Except`; SQL tables are
  in-memory lists of rows in insertion order, so `LIMIT 1` is `head?`.
-/

namespace Revora

/-- A JavaScript string / Node Buffer, as its byte sequence. -/
abbrev Str : Type := List Nat

/-- ASCII byte codes of a Lean string literal (all literals used are ASCII). -/
def strBytes (s : String) : Str := s.data.map Char.toNat

/-! ## JavaScript string primitives -/

/-- Model of `String.prototype.split` with a one-character separator: splits on every
occurrence, keeping empty segments (JS semantics). -/
def jsSplit (sep : Nat) : Str → List Str
  | [] => [[]]
  | c :: rest =>
    if c = sep then [] :: jsSplit sep rest
    else
      match jsSplit sep rest with
      | [] => [[c]]
      | s :: ss => (c :: s) :: ss

/-- ASCII whitespace recognised by `String.prototype.trim`. -/
def isJsSpace (b : Nat) : Bool := b = 9 || b = 10 || b = 11 || b = 12 || b = 13 || b = 32

/-- Model of `String.prototype.trim` (ASCII whitespace). -/
def jsTrim (s : Str) : Str :=
  ((s.dropWhile isJsSpace).reverse.dropWhile isJsSpace).reverse

/-- Model of `String.prototype.toLowerCase` / SQL `LOWER`, on ASCII letters. -/
def jsToLower (s : Str) : Str :=
  s.map (fun b => if 65 ≤ b ∧ b ≤ 90 then b + 32 else b)

theorem jsSplit_ne_nil (sep : Nat) (s : Str) : jsSplit sep s ≠ [] := by
  cases s with
  | nil => simp [jsSplit]
  | cons c rest =>
    simp only [jsSplit]
    split
    · simp
    · cases jsSplit sep rest <;> simp

/-- Splitting a separator-free string yields the single segment. -/
theorem jsSplit_no_sep (sep : Nat) (s : Str) (h : sep ∉ s) : jsSplit sep s = [s] := by
  induction s with
  | nil => rfl
  | cons c rest ih =>
    simp only [List.mem_cons, not_or] at h
    have hcs : ¬ c = sep := fun hcc => h.1 hcc.symm
    simp only [jsSplit, if_neg hcs, ih h.2]

/-- Splitting past a separator-free head segment peels it off. -/
theorem jsSplit_append_sep (sep : Nat) (a t : Str) (h : sep ∉ a) :
    jsSplit sep (a ++ sep :: t) = a :: jsSplit sep t := by
  induction a with
  | nil => simp [jsSplit]
  | cons c rest ih =>
    simp only [List.mem_cons, not_or] at h
    have hcs : ¬ c = sep := fun hcc => h.1 hcc.symm
    simp only [List.cons_append, jsSplit, if_neg hcs, List.append_eq]
    rw [ih h.2]

/-- A three-segment dot-joined string splits into its three segments. -/
theorem jsSplit_three (sep : Nat) (a b c : Str)
    (ha : sep ∉ a) (hb : sep ∉ b) (hc : sep ∉ c) :
    jsSplit sep (a ++ sep :: (b ++ sep :: c)) = [a, b, c] := by
  rw [jsSplit_append_sep sep a _ ha, jsSplit_append_sep sep b _ hb, jsSplit_no_sep sep c hc]

/-! ## Base64 / base64url (`base64UrlEncode`, `base64UrlDecode` in the JWT module)

The source produces standard base64 via `Buffer.toString('base64')`, then
strips `=` and maps `+ → -`, `/ → _`; decoding maps back, re-pads to a
multiple of four and decodes.  Standard base64 is embedded directly
(3 bytes ↦ 4 alphabet characters, `=` = byte 61 padding). -/

/-- The standard base64 alphabet, as ASCII codes (total on `Nat`). -/
def b64At (i : Nat) : Nat :=
  if i < 26 then 65 + i
  else if i < 52 then 97 + (i - 26)
  else if i < 62 then 48 + (i - 52)
  else if i = 62 then 43
  else 47

/-- Inverse of the base64 alphabet. -/
def b64Inv (c : Nat) : Option Nat :=
  if 65 ≤ c ∧ c ≤ 90 then some (c - 65)
  else if 97 ≤ c ∧ c ≤ 122 then some (26 + (c - 97))
  else if 48 ≤ c ∧ c ≤ 57 then some (52 + (c - 48))
  else if c = 43 then some 62
  else if c = 47 then some 63
  else none

/-- Standard base64 encoding of a byte list, with `=` padding. -/
def b64Encode : List Nat → List Nat
  | [] => []
  | [b1] => [b64At (b1 / 4), b64At (b1 % 4 * 16), 61, 61]
  | [b1, b2] => [b64At (b1 / 4), b64At (b1 % 4 * 16 + b2 / 16), b64At (b2 % 16 * 4), 61]
  | b1 :: b2 :: b3 :: rest =>
      b64At (b1 / 4) :: b64At (b1 % 4 * 16 + b2 / 16) ::
      b64At (b2 % 16 * 4 + b3 / 64) :: b64At (b3 % 64) :: b64Encode rest

/-- Standard base64 decoding (`Buffer.from(·, 'base64')` on well-formed input). -/
def b64Decode : List Nat → Option (List Nat)
  | [] => some []
  | c1 :: c2 :: c3 :: c4 :: rest =>
    if c3 = 61 ∧ c4 = 61 ∧ rest = [] then
      match b64Inv c1, b64Inv c2 with
      | some x1, some x2 => some [x1 * 4 + x2 / 16]
      | _, _ => none
    else if c4 = 61 ∧ rest = [] then
      match b64Inv c1, b64Inv c2, b64Inv c3 with
      | some x1, some x2, some x3 => some [x1 * 4 + x2 / 16, x2 % 16 * 16 + x3 / 4]
      | _, _, _ => none
    else
      match b64Inv c1, b64Inv c2, b64Inv c3, b64Inv c4, b64Decode rest with
      | some x1, some x2, some x3, some x4, some tl =>
          some ((x1 * 4 + x2 / 16) :: (x2 % 16 * 16 + x3 / 4) :: (x3 % 4 * 64 + x4) :: tl)
      | _, _, _, _, _ => none
  | _ => none

/-- Model of `.replace(/\+/g, '-').replace(/\//g, '_')` on one character. -/
def urlTr (c : Nat) : Nat := if c = 43 then 45 else if c = 47 then 95 else c

/-- The reverse translation `- → +`, `_ → /` used before decoding. -/
def urlUntr (c : Nat) : Nat := if c = 45 then 43 else if c = 95 then 47 else c

/-- Model of `base64UrlEncode` from the JWT module: standard base64, `=` stripped,
`+/` translated to `-_`. -/
def base64UrlEncode (bs : List Nat) : Str :=
  ((b64Encode bs).filter (fun c => c ≠ 61)).map urlTr

/-- Re-padding step of `base64UrlDecode`: pad with `=` to a multiple of 4. -/
def b64Repad (t : List Nat) : List Nat :=
  if t.length % 4 = 0 then t else t ++ List.replicate (4 - t.length % 4) 61

/-- Model of `base64UrlDecode` from the JWT module: translate `-_` back, re-pad,
then base64-decode. -/
def base64UrlDecode (s : Str) : Option (List Nat) :=
  b64Decode (b64Repad (s.map urlUntr))

/-- The alphabet lands in `A-Z`, `a-z`, `0-9`, `+`, `/` for every index. -/
theorem b64At_range (i : Nat) :
    65 ≤ b64At i ∧ b64At i ≤ 90 ∨ 97 ≤ b64At i ∧ b64At i ≤ 122 ∨
    48 ≤ b64At i ∧ b64At i ≤ 57 ∨ b64At i = 43 ∨ b64At i = 47 := by
  unfold b64At
  split_ifs <;> omega

/-- Every alphabet character differs from `=`, `.` and survives the
urlsafe translation round trip. -/
theorem b64At_facts (i : Nat) :
    b64At i ≠ 61 ∧ b64At i ≠ 46 ∧ urlUntr (urlTr (b64At i)) = b64At i := by
  have h := b64At_range i
  unfold urlTr urlUntr
  refine ⟨by omega, by omega, ?_⟩
  split_ifs <;> omega

/-- The alphabet map is inverted by `b64Inv` on sextets. -/
theorem b64Inv_at : ∀ i < 64, b64Inv (b64At i) = some i := by decide

/-- Characters of a base64 encoding are padding or alphabet characters. -/
theorem b64Encode_mem (bs : List Nat) :
    ∀ c ∈ b64Encode bs, c = 61 ∨ ∃ i, c = b64At i := by
  induction bs using b64Encode.induct with
  | case1 => intro c hc; simp [b64Encode] at hc
  | case2 b1 =>
    intro c hc
    simp only [b64Encode, List.mem_cons, List.not_mem_nil, or_false] at hc
    rcases hc with h | h | h | h
    · exact Or.inr ⟨_, h⟩
    · exact Or.inr ⟨_, h⟩
    · exact Or.inl h
    · exact Or.inl h
  | case3 b1 b2 =>
    intro c hc
    simp only [b64Encode, List.mem_cons, List.not_mem_nil, or_false] at hc
    rcases hc with h | h | h | h
    · exact Or.inr ⟨_, h⟩
    · exact Or.inr ⟨_, h⟩
    · exact Or.inr ⟨_, h⟩
    · exact Or.inl h
  | case4 b1 b2 b3 rest ih =>
    intro c hc
    simp only [b64Encode, List.mem_cons] at hc
    rcases hc with h | h | h | h | h
    · exact Or.inr ⟨_, h⟩
    · exact Or.inr ⟨_, h⟩
    · exact Or.inr ⟨_, h⟩
    · exact Or.inr ⟨_, h⟩
    · exact ih c h

/-- The `.` byte (46) never occurs in a base64url encoding — so dot-joined
JWT segments split back apart. -/
theorem dot_not_mem_base64UrlEncode (bs : List Nat) : 46 ∉ base64UrlEncode bs := by
  intro hmem
  simp only [base64UrlEncode, List.mem_map, List.mem_filter] at hmem
  obtain ⟨c, ⟨hc, _⟩, htr⟩ := hmem
  rcases b64Encode_mem bs c hc with h61 | ⟨i, hi⟩
  · subst h61; simp [urlTr] at htr
  · have hr := b64At_range i
    subst hi
    unfold urlTr at htr
    split_ifs at htr <;> omega


theorem filter_ne61_cons_at (i : Nat) (l : List Nat) :
    (b64At i :: l).filter (fun c => c ≠ 61) = b64At i :: l.filter (fun c => c ≠ 61) := by
  simp [List.filter_cons, (b64At_facts i).1]

theorem filter_ne61_cons61 (l : List Nat) :
    ((61 : Nat) :: l).filter (fun c => c ≠ 61) = l.filter (fun c => c ≠ 61) := by
  simp [List.filter_cons]

/-- Reversing the urlsafe character translation recovers the stripped base64. -/
theorem map_untr_base64UrlEncode (bs : List Nat) :
    (base64UrlEncode bs).map urlUntr = (b64Encode bs).filter (fun c => c ≠ 61) := by
  unfold base64UrlEncode
  rw [List.map_map]
  have h : ∀ c ∈ (b64Encode bs).filter (fun c => c ≠ 61), (urlUntr ∘ urlTr) c = id c := by
    intro c hc
    rw [List.mem_filter] at hc
    rcases b64Encode_mem bs c hc.1 with h61 | ⟨i, hi⟩
    · subst h61; simp at hc
    · subst hi; exact (b64At_facts i).2.2
  rw [List.map_congr_left h, List.map_id]

/-- Re-padding steps over a full four-character chunk. -/
theorem b64Repad_cons4 (c1 c2 c3 c4 : Nat) (t : List Nat) :
    b64Repad (c1 :: c2 :: c3 :: c4 :: t) = c1 :: c2 :: c3 :: c4 :: b64Repad t := by
  unfold b64Repad
  have h4 : (c1 :: c2 :: c3 :: c4 :: t).length % 4 = t.length % 4 := by
    simp only [List.length_cons]; omega
  rw [h4]
  split <;> simp

/-- Decoding a full (non-padding) chunk prepends its three bytes. -/
theorem b64Decode_cons4 (c1 c2 c3 c4 : Nat) (t : List Nat)
    (h3 : c3 ≠ 61) (h4 : c4 ≠ 61) (x1 x2 x3 x4 : Nat)
    (e1 : b64Inv c1 = some x1) (e2 : b64Inv c2 = some x2)
    (e3 : b64Inv c3 = some x3) (e4 : b64Inv c4 = some x4) :
    b64Decode (c1 :: c2 :: c3 :: c4 :: t) =
      (b64Decode t).map
        (fun tl => (x1 * 4 + x2 / 16) :: (x2 % 16 * 16 + x3 / 4) :: (x3 % 4 * 64 + x4) :: tl) := by
  simp only [b64Decode]
  rw [if_neg (by intro hcon; exact h3 hcon.1), if_neg (by intro hcon; exact h4 hcon.1),
      e1, e2, e3, e4]
  cases b64Decode t <;> rfl

theorem b64_roundtrip_aux (bs : List Nat) (hb : ∀ b ∈ bs, b < 256) :
    b64Decode (b64Repad ((b64Encode bs).filter (fun c => c ≠ 61))) = some bs := by
  induction bs using b64Encode.induct with
  | case1 => rfl
  | case2 b1 =>
    have hb1 : b1 < 256 := hb b1 (by simp)
    simp only [b64Encode]
    rw [filter_ne61_cons_at, filter_ne61_cons_at, filter_ne61_cons61, filter_ne61_cons61,
        List.filter_nil]
    show b64Decode (b64Repad [b64At (b1 / 4), b64At (b1 % 4 * 16)]) = some [b1]
    unfold b64Repad
    rw [if_neg (by simp)]
    simp only [List.length_cons, List.length_nil]
    show b64Decode [b64At (b1 / 4), b64At (b1 % 4 * 16), 61, 61] = some [b1]
    simp only [b64Decode]
    rw [if_pos (by simp), b64Inv_at (b1 / 4) (by omega), b64Inv_at (b1 % 4 * 16) (by omega)]
    have h1 : b1 / 4 * 4 + b1 % 4 * 16 / 16 = b1 := by omega
    show some [b1 / 4 * 4 + b1 % 4 * 16 / 16] = some [b1]
    rw [h1]
  | case3 b1 b2 =>
    have hb1 : b1 < 256 := hb b1 (by simp)
    have hb2 : b2 < 256 := hb b2 (by simp)
    simp only [b64Encode]
    rw [filter_ne61_cons_at, filter_ne61_cons_at, filter_ne61_cons_at, filter_ne61_cons61,
        List.filter_nil]
    show b64Decode
        (b64Repad [b64At (b1 / 4), b64At (b1 % 4 * 16 + b2 / 16), b64At (b2 % 16 * 4)]) =
      some [b1, b2]
    unfold b64Repad
    rw [if_neg (by simp)]
    simp only [List.length_cons, List.length_nil]
    show b64Decode
        [b64At (b1 / 4), b64At (b1 % 4 * 16 + b2 / 16), b64At (b2 % 16 * 4), 61] =
      some [b1, b2]
    simp only [b64Decode]
    rw [if_neg (fun hcon => (b64At_facts (b2 % 16 * 4)).1 hcon.1), if_pos (by simp),
        b64Inv_at (b1 / 4) (by omega), b64Inv_at (b1 % 4 * 16 + b2 / 16) (by omega),
        b64Inv_at (b2 % 16 * 4) (by omega)]
    have h1 : b1 / 4 * 4 + (b1 % 4 * 16 + b2 / 16) / 16 = b1 := by omega
    have h2 : (b1 % 4 * 16 + b2 / 16) % 16 * 16 + b2 % 16 * 4 / 4 = b2 := by omega
    show some [b1 / 4 * 4 + (b1 % 4 * 16 + b2 / 16) / 16,
               (b1 % 4 * 16 + b2 / 16) % 16 * 16 + b2 % 16 * 4 / 4] = some [b1, b2]
    rw [h1, h2]
  | case4 b1 b2 b3 rest ih =>
    have hb1 : b1 < 256 := hb b1 (by simp)
    have hb2 : b2 < 256 := hb b2 (by simp)
    have hb3 : b3 < 256 := hb b3 (by simp)
    have hrest : ∀ b ∈ rest, b < 256 := fun b hbr => hb b (by simp [hbr])
    simp only [b64Encode]
    rw [filter_ne61_cons_at, filter_ne61_cons_at, filter_ne61_cons_at, filter_ne61_cons_at,
        b64Repad_cons4,
        b64Decode_cons4 _ _ _ _ _ (b64At_facts _).1 (b64At_facts _).1
          (b1 / 4) (b1 % 4 * 16 + b2 / 16) (b2 % 16 * 4 + b3 / 64) (b3 % 64)
          (b64Inv_at _ (by omega)) (b64Inv_at _ (by omega))
          (b64Inv_at _ (by omega)) (b64Inv_at _ (by omega)),
        ih hrest]
    have h1 : b1 / 4 * 4 + (b1 % 4 * 16 + b2 / 16) / 16 = b1 := by omega
    have h2 : (b1 % 4 * 16 + b2 / 16) % 16 * 16 + (b2 % 16 * 4 + b3 / 64) / 4 = b2 := by omega
    have h3 : (b2 % 16 * 4 + b3 / 64) % 4 * 64 + b3 % 64 = b3 := by omega
    show some ((b1 / 4 * 4 + (b1 % 4 * 16 + b2 / 16) / 16) ::
               ((b1 % 4 * 16 + b2 / 16) % 16 * 16 + (b2 % 16 * 4 + b3 / 64) / 4) ::
               ((b2 % 16 * 4 + b3 / 64) % 4 * 64 + b3 % 64) :: rest) =
      some (b1 :: b2 :: b3 :: rest)
    rw [h1, h2, h3]

/-- Base64url round trip: decoding an encoding recovers the bytes. -/
theorem base64UrlDecode_encode (bs : List Nat) (hb : ∀ b ∈ bs, b < 256) :
    base64UrlDecode (base64UrlEncode bs) = some bs := by
  unfold base64UrlDecode
  rw [map_untr_base64UrlEncode]
  exact b64_roundtrip_aux bs hb

/-! ## JSON framing (`JSON.stringify` / `JSON.parse` on flat payload objects)

The JWT code serialises flat objects whose values are strings or
non-negative integers, and parses attacker-supplied payloads with
`JSON.parse` followed by an unchecked cast.  The embedding renders exactly
what `JSON.stringify` renders for such objects, and parses the flat
fragment of JSON (objects of string/number members, no whitespace); inputs
outside this fragment parse to `none`, a conservative restriction that no
claim depends on. -/

/-- A parsed flat JSON value. -/
inductive JVal : Type
  | str : Str → JVal
  | num : Nat → JVal
deriving DecidableEq

/-- A parsed flat JSON object, in member order. -/
abbrev JObj : Type := List (Str × JVal)

/-- Property access `obj.field` on a parsed object (later duplicate keys win,
as in `JSON.parse`). -/
def getField (obj : JObj) (k : Str) : Option JVal :=
  obj.foldl (fun acc p => if p.1 = k then some p.2 else acc) none

/-- Lower-case hex digit (as used by `JSON.stringify` in `\u00XX` escapes). -/
def hexDigit (n : Nat) : Nat := if n < 10 then 48 + n else 87 + n

/-- Hex digit value, case-insensitive (as accepted by `JSON.parse`). -/
def hexVal (c : Nat) : Option Nat :=
  if 48 ≤ c ∧ c ≤ 57 then some (c - 48)
  else if 97 ≤ c ∧ c ≤ 102 then some (c - 87)
  else if 65 ≤ c ∧ c ≤ 70 then some (c - 55)
  else none

/-- Model of `JSON.stringify` escaping of one string byte: `\"`, `\\`, the named
control escapes, `\u00XX` for other control bytes, everything else verbatim. -/
def escByte (b : Nat) : List Nat :=
  if b = 34 then [92, 34]
  else if b = 92 then [92, 92]
  else if b = 8 then [92, 98]
  else if b = 9 then [92, 116]
  else if b = 10 then [92, 110]
  else if b = 12 then [92, 102]
  else if b = 13 then [92, 114]
  else if b < 32 then [92, 117, 48, 48, hexDigit (b / 16), hexDigit (b % 16)]
  else [b]

/-- Model of `JSON.stringify` escaping of a whole string body. -/
def escapeStr : Str → Str
  | [] => []
  | b :: t => escByte b ++ escapeStr t

/-- A JSON string literal: quote, escaped body, quote. -/
def jsonStrLit (s : Str) : Str := 34 :: (escapeStr s ++ [34])

/-- Little-endian decimal digits of `n` (fuel-driven so it unfolds by `rfl`). -/
def natDigitsRev (fuel n : Nat) : List Nat :=
  match fuel with
  | 0 => []
  | f + 1 => if n = 0 then [] else n % 10 :: natDigitsRev f (n / 10)

/-- Decimal rendering of a `Nat`, as `JSON.stringify` renders it. -/
def natLit (n : Nat) : Str :=
  if n = 0 then [48] else ((natDigitsRev n n).reverse).map (fun d => d + 48)

/-- ASCII decimal digit test. -/
def isDigitB (c : Nat) : Bool := 48 ≤ c && c ≤ 57

/-- Numeric parse: maximal digit run, `none` when empty (restriction of the
JSON number grammar to the non-negative integers the payloads carry). -/
def parseNum (l : Str) : Option (Nat × Str) :=
  let ds := l.takeWhile isDigitB
  if ds = [] then none
  else some (ds.foldl (fun a d => a * 10 + (d - 48)) 0, l.dropWhile isDigitB)

/-- One-character string escapes accepted by `JSON.parse`. -/
def unescChar (e : Nat) : Option Nat :=
  if e = 34 then some 34
  else if e = 92 then some 92
  else if e = 47 then some 47
  else if e = 98 then some 8
  else if e = 116 then some 9
  else if e = 110 then some 10
  else if e = 102 then some 12
  else if e = 114 then some 13
  else none

/-- Model of `JSON.parse` of a string body after the opening quote: returns the
unescaped content and the remainder after the closing quote.  Raw control
bytes are rejected, as by `JSON.parse`.  Fuel-driven (callers pass the
input length; every step consumes at least one byte). -/
def parseStrBody : Nat → Str → Option (Str × Str)
  | 0, _ => none
  | _, [] => none
  | fuel + 1, c :: t =>
    if c = 34 then some ([], t)
    else if c = 92 then
      match t with
      | [] => none
      | e :: t2 =>
        if e = 117 then
          match t2 with
          | h1 :: h2 :: h3 :: h4 :: t3 =>
            match hexVal h1, hexVal h2, hexVal h3, hexVal h4 with
            | some v1, some v2, some v3, some v4 =>
              (parseStrBody fuel t3).map
                (fun p => ((((v1 * 16 + v2) * 16 + v3) * 16 + v4) :: p.1, p.2))
            | _, _, _, _ => none
          | _ => none
        else
          match unescChar e with
          | some b => (parseStrBody fuel t2).map (fun p => (b :: p.1, p.2))
          | none => none
    else if c < 32 then none
    else (parseStrBody fuel t).map (fun p => (c :: p.1, p.2))

/-- Parse one flat JSON value (string literal or number). -/
def parseVal (l : Str) : Option (JVal × Str) :=
  match l with
  | [] => none
  | c :: t =>
    if c = 34 then (parseStrBody t.length t).map (fun p => (JVal.str p.1, p.2))
    else (parseNum (c :: t)).map (fun p => (JVal.num p.1, p.2))

/-- Parse `"key":value` members up to and including the closing brace
(fuel-driven; callers pass the input length, an upper bound on the member
count). -/
def parseMembers : Nat → Str → Option (JObj × Str)
  | 0, _ => none
  | fuel + 1, l =>
    match l with
    | [] => none
    | c :: t =>
      if c = 34 then
        match parseStrBody t.length t with
        | none => none
        | some (k, r1) =>
          match r1 with
          | [] => none
          | c2 :: r2 =>
            if c2 = 58 then
              match parseVal r2 with
              | none => none
              | some (v, r3) =>
                match r3 with
                | [] => none
                | c3 :: r4 =>
                  if c3 = 44 then
                    match parseMembers fuel r4 with
                    | some (obj, r5) => some ((k, v) :: obj, r5)
                    | none => none
                  else if c3 = 125 then some ([(k, v)], r4)
                  else none
            else none
      else none

/-- Model of `JSON.parse` restricted to flat objects, requiring the input to be
consumed exactly (trailing garbage is a parse error). -/
def parseJson (l : Str) : Option JObj :=
  match l with
  | c :: t =>
    if c = 123 then
      match t with
      | c2 :: r =>
        if c2 = 125 then if r = [] then some [] else none
        else
          match parseMembers t.length t with
          | some (obj, r2) => if r2 = [] then some obj else none
          | none => none
      | [] => none
    else none
  | [] => none

theorem hexVal_hexDigit : ∀ x < 16, hexVal (hexDigit x) = some x := by decide

/-- Unfolding the parser on a single-character escape. -/
theorem parseStrBody_esc (f e : Nat) (rest : Str) (bb : Nat)
    (he : e ≠ 117) (hu : unescChar e = some bb) :
    parseStrBody (f + 1) (92 :: e :: rest) =
      (parseStrBody f rest).map (fun p => (bb :: p.1, p.2)) := by
  simp [parseStrBody, he, hu]

/-- Unfolding the parser on a `\u00XX` escape with hex digits. -/
theorem parseStrBody_escU (f : Nat) (h1 h2 h3 h4 : Nat) (rest : Str)
    (v1 v2 v3 v4 : Nat) (e1 : hexVal h1 = some v1) (e2 : hexVal h2 = some v2)
    (e3 : hexVal h3 = some v3) (e4 : hexVal h4 = some v4) :
    parseStrBody (f + 1) (92 :: 117 :: h1 :: h2 :: h3 :: h4 :: rest) =
      (parseStrBody f rest).map
        (fun p => ((((v1 * 16 + v2) * 16 + v3) * 16 + v4) :: p.1, p.2)) := by
  simp [parseStrBody, e1, e2, e3, e4]

/-- Unfolding the parser on a plain (unescaped) byte. -/
theorem parseStrBody_plain (f c : Nat) (rest : Str)
    (h34 : c ≠ 34) (h92 : c ≠ 92) (hctl : ¬ c < 32) :
    parseStrBody (f + 1) (c :: rest) =
      (parseStrBody f rest).map (fun p => (c :: p.1, p.2)) := by
  simp [parseStrBody, h34, h92, hctl]

/-- String escape round trip: the parser inverts `JSON.stringify`
escaping, leaving the bytes after the closing quote untouched. -/
theorem parseStrBody_escape (s : Str) : ∀ (r : Str) (fuel : Nat),
    (escapeStr s ++ 34 :: r).length ≤ fuel →
    parseStrBody fuel (escapeStr s ++ 34 :: r) = some (s, r) := by
  induction s with
  | nil =>
    intro r fuel hf
    simp only [escapeStr, List.nil_append, List.length_cons] at hf ⊢
    cases fuel with
    | zero => omega
    | succ f => simp [parseStrBody]
  | cons b t ih =>
    intro r fuel hf
    simp only [escapeStr, List.append_assoc] at hf ⊢
    by_cases h34 : b = 34
    · subst h34
      rw [show escByte 34 = [92, 34] from rfl] at hf ⊢
      simp only [List.cons_append, List.nil_append, List.length_cons] at hf ⊢
      cases fuel with
      | zero => omega
      | succ f =>
        rw [parseStrBody_esc f 34 _ 34 (by omega) rfl,
            ih r f (by simp only [List.length_append, List.length_cons] at hf ⊢; omega)]
        rfl
    · by_cases h92 : b = 92
      · subst h92
        rw [show escByte 92 = [92, 92] from rfl] at hf ⊢
        simp only [List.cons_append, List.nil_append, List.length_cons] at hf ⊢
        cases fuel with
        | zero => omega
        | succ f =>
          rw [parseStrBody_esc f 92 _ 92 (by omega) rfl,
              ih r f (by simp only [List.length_append, List.length_cons] at hf ⊢; omega)]
          rfl
      · by_cases hb8 : b = 8
        · subst hb8
          rw [show escByte 8 = [92, 98] from rfl] at hf ⊢
          simp only [List.cons_append, List.nil_append, List.length_cons] at hf ⊢
          cases fuel with
          | zero => omega
          | succ f =>
            rw [parseStrBody_esc f 98 _ 8 (by omega) rfl,
                ih r f (by simp only [List.length_append, List.length_cons] at hf ⊢; omega)]
            rfl
        · by_cases hb9 : b = 9
          · subst hb9
            rw [show escByte 9 = [92, 116] from rfl] at hf ⊢
            simp only [List.cons_append, List.nil_append, List.length_cons] at hf ⊢
            cases fuel with
            | zero => omega
            | succ f =>
              rw [parseStrBody_esc f 116 _ 9 (by omega) rfl,
                  ih r f (by simp only [List.length_append, List.length_cons] at hf ⊢; omega)]
              rfl
          · by_cases hb10 : b = 10
            · subst hb10
              rw [show escByte 10 = [92, 110] from rfl] at hf ⊢
              simp only [List.cons_append, List.nil_append, List.length_cons] at hf ⊢
              cases fuel with
              | zero => omega
              | succ f =>
                rw [parseStrBody_esc f 110 _ 10 (by omega) rfl,
                    ih r f
                      (by simp only [List.length_append, List.length_cons] at hf ⊢; omega)]
                rfl
            · by_cases hb12 : b = 12
              · subst hb12
                rw [show escByte 12 = [92, 102] from rfl] at hf ⊢
                simp only [List.cons_append, List.nil_append, List.length_cons] at hf ⊢
                cases fuel with
                | zero => omega
                | succ f =>
                  rw [parseStrBody_esc f 102 _ 12 (by omega) rfl,
                      ih r f
                        (by simp only [List.length_append, List.length_cons] at hf ⊢; omega)]
                  rfl
              · by_cases hb13 : b = 13
                · subst hb13
                  rw [show escByte 13 = [92, 114] from rfl] at hf ⊢
                  simp only [List.cons_append, List.nil_append, List.length_cons] at hf ⊢
                  cases fuel with
                  | zero => omega
                  | succ f =>
                    rw [parseStrBody_esc f 114 _ 13 (by omega) rfl,
                        ih r f
                          (by simp only [List.length_append, List.length_cons] at hf ⊢; omega)]
                    rfl
                · by_cases hctl : b < 32
                  · have hesc : escByte b =
                        [92, 117, 48, 48, hexDigit (b / 16), hexDigit (b % 16)] := by
                      unfold escByte
                      rw [if_neg h34, if_neg h92, if_neg hb8, if_neg hb9, if_neg hb10,
                          if_neg hb12, if_neg hb13, if_pos hctl]
                    rw [hesc] at hf ⊢
                    simp only [List.cons_append, List.nil_append, List.length_cons] at hf ⊢
                    cases fuel with
                    | zero => omega
                    | succ f =>
                      rw [parseStrBody_escU f 48 48 (hexDigit (b / 16)) (hexDigit (b % 16)) _
                            0 0 (b / 16) (b % 16) rfl rfl
                            (hexVal_hexDigit _ (by omega)) (hexVal_hexDigit _ (by omega)),
                          ih r f
                            (by simp only [List.length_append, List.length_cons] at hf ⊢; omega)]
                      simp only [Option.map]
                      have hb' : ((0 * 16 + 0) * 16 + b / 16) * 16 + b % 16 = b := by omega
                      rw [hb']
                  · have hesc : escByte b = [b] := by
                      unfold escByte
                      rw [if_neg h34, if_neg h92, if_neg hb8, if_neg hb9, if_neg hb10,
                          if_neg hb12, if_neg hb13, if_neg hctl]
                    rw [hesc] at hf ⊢
                    simp only [List.cons_append, List.nil_append, List.length_cons] at hf ⊢
                    cases fuel with
                    | zero => omega
                    | succ f =>
                      rw [parseStrBody_plain f b _ h34 h92 hctl,
                          ih r f
                            (by simp only [List.length_append, List.length_cons] at hf ⊢; omega)]
                      rfl

theorem natDigitsRev_lt_ten (fuel : Nat) : ∀ n, ∀ d ∈ natDigitsRev fuel n, d < 10 := by
  induction fuel with
  | zero => intro n d hd; simp [natDigitsRev] at hd
  | succ f ih =>
    intro n d hd
    simp only [natDigitsRev] at hd
    split at hd
    · simp at hd
    · rcases List.mem_cons.1 hd with h | h
      · omega
      · exact ih (n / 10) d h

/-- Folding the decimal parse over rendered digits recovers the number. -/
theorem foldl_natDigitsRev (fuel : Nat) : ∀ n, n ≤ fuel → ∀ acc : Nat,
    List.foldl (fun a d => a * 10 + (d - 48)) acc
        (((natDigitsRev fuel n).reverse).map (fun d => d + 48)) =
      acc * 10 ^ (natDigitsRev fuel n).length + n := by
  induction fuel with
  | zero =>
    intro n hn acc
    have : n = 0 := by omega
    subst this
    simp [natDigitsRev]
  | succ f ih =>
    intro n hn acc
    by_cases h0 : n = 0
    · subst h0; simp [natDigitsRev]
    · simp only [natDigitsRev, if_neg h0, List.reverse_cons, List.map_append, List.map_cons,
        List.map_nil, List.foldl_append, List.foldl_cons, List.foldl_nil, List.length_cons]
      have hdiv : n / 10 ≤ f := by omega
      rw [ih (n / 10) hdiv acc]
      have hdm : n / 10 * 10 + n % 10 = n := by omega
      calc (acc * 10 ^ (natDigitsRev f (n / 10)).length + n / 10) * 10 + (n % 10 + 48 - 48)
          = acc * 10 ^ ((natDigitsRev f (n / 10)).length + 1) +
              (n / 10 * 10 + (n % 10 + 48 - 48)) := by ring_nf
        _ = acc * 10 ^ ((natDigitsRev f (n / 10)).length + 1) + n := by omega

theorem natLit_digits (n : Nat) : ∀ d ∈ natLit n, isDigitB d = true := by
  intro d hd
  unfold natLit at hd
  split at hd
  · simp at hd; simp [isDigitB, hd]
  · simp only [List.mem_map, List.mem_reverse] at hd
    obtain ⟨x, hx, hxd⟩ := hd
    have := natDigitsRev_lt_ten n n x hx
    simp [isDigitB]
    omega

theorem natLit_ne_nil (n : Nat) : natLit n ≠ [] := by
  unfold natLit
  split
  · simp
  · intro hcon
    simp only [List.map_eq_nil_iff, List.reverse_eq_nil_iff] at hcon
    have : natDigitsRev n n ≠ [] := by
      cases n with
      | zero => omega
      | succ m => simp [natDigitsRev]
    exact this hcon

/-- Splitting `takeWhile`/`dropWhile`: they split a satisfying block from a failing head. -/
theorem takeWhile_dropWhile_block (p : Nat → Bool) (l1 : List Nat) (c : Nat) (r : List Nat)
    (h1 : ∀ x ∈ l1, p x = true) (hc : p c = false) :
    (l1 ++ c :: r).takeWhile p = l1 ∧ (l1 ++ c :: r).dropWhile p = c :: r := by
  induction l1 with
  | nil => simp [List.takeWhile, List.dropWhile, hc]
  | cons x xs ih =>
    have hx : p x = true := h1 x (by simp)
    have ihh := ih (fun y hy => h1 y (by simp [hy]))
    simp only [List.cons_append, List.takeWhile_cons, List.dropWhile_cons, hx]
    simp [ihh.1, ihh.2]

/-- Decimal round trip: parsing a rendered number followed by a
non-digit recovers the number and the rest. -/
theorem parseNum_natLit (n c : Nat) (r : Str) (hc : isDigitB c = false) :
    parseNum (natLit n ++ c :: r) = some (n, c :: r) := by
  unfold parseNum
  have hsplit := takeWhile_dropWhile_block isDigitB (natLit n) c r (natLit_digits n) hc
  rw [hsplit.1, hsplit.2, if_neg (natLit_ne_nil n)]
  congr 1
  unfold natLit
  split
  · rename_i h0
    subst h0
    rfl
  · rw [foldl_natDigitsRev n n (le_refl n) 0]
    simp

/-- Parsing a serialised string literal yields the string value. -/
theorem parseVal_strLit (s r : Str) :
    parseVal (jsonStrLit s ++ r) = some (JVal.str s, r) := by
  unfold jsonStrLit parseVal
  simp only [List.cons_append, List.append_assoc, List.cons_append, List.nil_append,
    eq_self_iff_true, if_true]
  rw [parseStrBody_escape s r _ (le_refl _)]
  rfl

/-- Parsing a rendered number value yields the numeric value. -/
theorem parseVal_natLit (n c : Nat) (r : Str) (hc : isDigitB c = false) :
    parseVal (natLit n ++ c :: r) = some (JVal.num n, c :: r) := by
  have hne := natLit_ne_nil n
  cases hnl : natLit n with
  | nil => exact absurd hnl hne
  | cons d ds =>
    have hd : isDigitB d = true := by
      have := natLit_digits n d (by rw [hnl]; simp)
      exact this
    have hd34 : ¬ d = 34 := by simp [isDigitB] at hd; omega
    unfold parseVal
    simp only [List.cons_append]
    rw [if_neg hd34]
    have : parseNum (d :: (ds ++ c :: r)) = some (n, c :: r) := by
      have := parseNum_natLit n c r hc
      rw [hnl] at this
      simpa using this
    rw [this]
    rfl

/-- One non-final member: `"key":value,` parses and recurses. -/
theorem parseMembers_more (f : Nat) (k : Str) (w : Str) (v : JVal) (t1 : Str)
    (hv : parseVal w = some (v, 44 :: t1)) :
    parseMembers (f + 1) (jsonStrLit k ++ 58 :: w) =
      match parseMembers f t1 with
      | some (obj, r5) => some ((k, v) :: obj, r5)
      | none => none := by
  unfold jsonStrLit
  simp only [List.cons_append, List.append_assoc, List.nil_append]
  simp only [parseMembers, eq_self_iff_true, if_true]
  rw [parseStrBody_escape k (58 :: w) _ (le_refl _)]
  simp only [eq_self_iff_true, if_true]
  rw [hv]
  cases hpm : parseMembers f t1 <;> simp [hpm]

/-- The final member: `"key":value}` closes the object. -/
theorem parseMembers_last (f : Nat) (k : Str) (w : Str) (v : JVal) (t1 : Str)
    (hv : parseVal w = some (v, 125 :: t1)) :
    parseMembers (f + 1) (jsonStrLit k ++ 58 :: w) = some ([(k, v)], t1) := by
  unfold jsonStrLit
  simp only [List.cons_append, List.append_assoc, List.nil_append]
  simp only [parseMembers, eq_self_iff_true, if_true]
  rw [parseStrBody_escape k (58 :: w) _ (le_refl _)]
  simp only [eq_self_iff_true, if_true]
  rw [hv]
  norm_num

/-! ## The JWT module (`src/utils/jwt.ts`, re-exported through `app.ts`)

`signJwt` / `verifyJwt` (HMAC-SHA256, no external JWT dependency), plus the
divergent `verifyJwt` variant living in `src/middleware/auth.ts`
(`verifyJwtLib` here) which the auth middlewares use. -/

/-- The byte rendering of `JSON.stringify({ alg: 'HS256', typ: 'JWT' })`. -/
def headerJson : Str :=
  strBytes "\x7b\"alg\":\"HS256\",\"typ\":\"JWT\"\x7d"

/-- The byte rendering of
`JSON.stringify({ sub, sid, iat, exp })` (insertion order `sub`,`sid`,`iat`,`exp`,
string values quoted and escaped, numbers in decimal). -/
def stringifyPayload (sub sid : Str) (iat expv : Nat) : Str :=
  123 :: (jsonStrLit (strBytes "sub") ++ 58 :: (jsonStrLit sub ++
    44 :: (jsonStrLit (strBytes "sid") ++ 58 :: (jsonStrLit sid ++
    44 :: (jsonStrLit (strBytes "iat") ++ 58 :: (natLit iat ++
    44 :: (jsonStrLit (strBytes "exp") ++ 58 :: (natLit expv ++ [125]))))))))

theorem jsonStrLit_cons (k l : Str) :
    jsonStrLit k ++ l = 34 :: (escapeStr k ++ [34] ++ l) := by
  simp [jsonStrLit]

/-- The four members of a stringified payload parse back, leaving nothing. -/
theorem parseMembers_payload (sub sid : Str) (iat expv : Nat) (m : Nat) :
    parseMembers (m + 4)
      (jsonStrLit (strBytes "sub") ++ 58 :: (jsonStrLit sub ++
        44 :: (jsonStrLit (strBytes "sid") ++ 58 :: (jsonStrLit sid ++
        44 :: (jsonStrLit (strBytes "iat") ++ 58 :: (natLit iat ++
        44 :: (jsonStrLit (strBytes "exp") ++ 58 :: (natLit expv ++ [125])))))))) =
      some ([(strBytes "sub", JVal.str sub), (strBytes "sid", JVal.str sid),
             (strBytes "iat", JVal.num iat), (strBytes "exp", JVal.num expv)], []) := by
  rw [show m + 4 = (m + 3) + 1 from rfl,
      parseMembers_more (m + 3) _ _ _ _ (parseVal_strLit sub _),
      show m + 3 = (m + 2) + 1 from rfl,
      parseMembers_more (m + 2) _ _ _ _ (parseVal_strLit sid _),
      show m + 2 = (m + 1) + 1 from rfl,
      parseMembers_more (m + 1) _ _ _ _ (parseVal_natLit iat 44 _ rfl),
      parseMembers_last m _ _ _ _ (parseVal_natLit expv 125 [] rfl)]

/-- Payload round trip: `JSON.parse` recovers the four members of a
stringified JWT payload, in order. -/
theorem parseJson_stringifyPayload (sub sid : Str) (iat expv : Nat) :
    parseJson (stringifyPayload sub sid iat expv) =
      some [(strBytes "sub", JVal.str sub), (strBytes "sid", JVal.str sid),
            (strBytes "iat", JVal.num iat), (strBytes "exp", JVal.num expv)] := by
  unfold stringifyPayload
  rw [jsonStrLit_cons (strBytes "sub")]
  unfold parseJson
  simp only [eq_self_iff_true, if_true]
  rw [if_neg (by omega)]
  rw [← jsonStrLit_cons (strBytes "sub")]
  have hlen : 4 ≤ (jsonStrLit (strBytes "sub") ++ 58 :: (jsonStrLit sub ++
      44 :: (jsonStrLit (strBytes "sid") ++ 58 :: (jsonStrLit sid ++
      44 :: (jsonStrLit (strBytes "iat") ++ 58 :: (natLit iat ++
      44 :: (jsonStrLit (strBytes "exp") ++ 58 :: (natLit expv ++ [125])))))))).length := by
    have h5 : (jsonStrLit (strBytes "sub")).length = 5 := rfl
    simp only [List.length_append, List.length_cons, h5]
    omega
  obtain ⟨m, hm⟩ := Nat.exists_eq_add_of_le' hlen
  rw [hm, parseMembers_payload sub sid iat expv m]
  simp

/-- Model of `getSecret` from `src/utils/jwt.ts`: reads `process.env.JWT_SECRET`
(modelled as `env`, with `none` for unset) on each call and throws when the
value is falsy (absent or the empty string). -/
def getSecret (env : Option Str) : Except String Str :=
  match env with
  | none => .error "JWT_SECRET environment variable is not set"
  | some s => if s = [] then .error "JWT_SECRET environment variable is not set" else .ok s

/-- JavaScript numeric coercion of a string, restricted to the non-negative
decimal integers (`Number('42') = 42`); other strings coerce to `NaN`,
making every `<`/`>` comparison false, which `none` models here. -/
def jsNumber (s : Str) : Option Nat :=
  if s ≠ [] ∧ s.all isDigitB then some (s.foldl (fun a d => a * 10 + (d - 48)) 0) else none

/-- Model of `signJwt` (`src/utils/jwt.ts`): HMAC-SHA256-signed compact token.
`hmac secret msg` stands for `createHmac('sha256', secret).update(msg).digest()`. -/
def signJwt (hmac : Str → Str → Str) (env : Option Str) (now : Nat)
    (sub sid : Str) (expiresInSeconds : Nat) : Except String Str :=
  let fullPayload := stringifyPayload sub sid now (now + expiresInSeconds)
  let header := base64UrlEncode headerJson
  let body := base64UrlEncode fullPayload
  let signingInput := header ++ 46 :: body
  match getSecret env with
  | .error e => .error e
  | .ok secret => .ok (signingInput ++ 46 :: base64UrlEncode (hmac secret signingInput))

/-- Model of `verifyJwt` (`src/utils/jwt.ts`): split on `.`, require three segments,
recompute and compare the signature, then parse the payload and check
expiry.  `JSON.parse` failures are caught and produce `null` (`.ok none`);
a missing secret throws out of the call.  A missing `exp` field makes the
JS comparison `now > undefined` false, so the token is accepted; a string
`exp` is numerically coerced. -/
def verifyJwt (hmac : Str → Str → Str) (env : Option Str) (now : Nat) (token : Str) :
    Except String (Option JObj) :=
  match jsSplit 46 token with
  | [header, body, signature] =>
    let signingInput := header ++ 46 :: body
    match getSecret env with
    | .error e => .error e
    | .ok secret =>
    let expectedSig := base64UrlEncode (hmac secret signingInput)
    if signature.length = expectedSig.length ∧ signature = expectedSig then
      match base64UrlDecode body with
      | none => .ok none
      | some bodyBytes =>
        match parseJson bodyBytes with
        | none => .ok none
        | some payload =>
          match getField payload (strBytes "exp") with
          | some (JVal.num e) => if now > e then .ok none else .ok (some payload)
          | some (JVal.str s) =>
            match jsNumber s with
            | some e => if now > e then .ok none else .ok (some payload)
            | none => .ok (some payload)
          | none => .ok (some payload)
    else .ok none
  | _ => .ok none

/-- The divergent `verifyJwt` variant in `src/middleware/auth.ts`
(HS256 via `crypto`, `digest('base64url')`): throws on format, signature
and expiry failures, and skips the expiry check when `exp` is `undefined`. -/
def verifyJwtLib (hmac : Str → Str → Str) (secret : Str) (now : Nat) (token : Str) :
    Except String JObj :=
  match jsSplit 46 token with
  | [headerB64, payloadB64, signatureB64] =>
    let expectedSig := base64UrlEncode (hmac secret (headerB64 ++ 46 :: payloadB64))
    if expectedSig = signatureB64 then
      match base64UrlDecode payloadB64 with
      | none => .error "Unexpected token in JSON"
      | some bodyBytes =>
        match parseJson bodyBytes with
        | none => .error "Unexpected token in JSON"
        | some payload =>
          match getField payload (strBytes "exp") with
          | some (JVal.num e) => if e < now then .error "Token expired" else .ok payload
          | some (JVal.str s) =>
            match jsNumber s with
            | some e => if e < now then .error "Token expired" else .ok payload
            | none => .ok payload
          | none => .ok payload
    else .error "Invalid token signature"
  | _ => .error "Invalid token format"

/-- The process environments recognised by `buildConfig` (`src/config/env.ts`). -/
inductive NodeEnvKind : Type
  | development | test | production
deriving DecidableEq

/-- The `DATABASE_URL`/`JWT_SECRET` validation step of `buildConfig`
(`src/config/env.ts` lines 63-68): required only in production; a falsy
value (absent or empty) fails construction there. -/
def buildConfigCheck (nodeEnv : NodeEnvKind) (databaseUrl jwtSecret : Option Str) :
    Except String Unit :=
  if nodeEnv = .production then
    if databaseUrl = none ∨ databaseUrl = some [] then
      .error "DATABASE_URL is required in production"
    else if jwtSecret = none ∨ jwtSecret = some [] then
      .error "JWT_SECRET is required in production"
    else .ok ()
  else .ok ()

/-- Evaluating `signJwt` with a present secret produces the dot-joined segments. -/
theorem signJwt_eq (hmac : Str → Str → Str) (secret : Str) (hs : secret ≠ [])
    (now : Nat) (sub sid : Str) (ttl : Nat) :
    signJwt hmac (some secret) now sub sid ttl =
      .ok (base64UrlEncode headerJson ++
        46 :: (base64UrlEncode (stringifyPayload sub sid now (now + ttl)) ++
        46 :: base64UrlEncode (hmac secret
          (base64UrlEncode headerJson ++
            46 :: base64UrlEncode (stringifyPayload sub sid now (now + ttl)))))) := by
  unfold signJwt getSecret
  simp only [if_neg hs]
  rfl

theorem hexDigit_lt (x : Nat) (hx : x < 16) : hexDigit x < 256 := by
  unfold hexDigit; split <;> omega

theorem escByte_lt (b x : Nat) (hb : b < 256) (hx : x ∈ escByte b) : x < 256 := by
  unfold escByte at hx
  have hd1 : hexDigit (b / 16) < 256 := hexDigit_lt _ (by omega)
  have hd2 : hexDigit (b % 16) < 256 := hexDigit_lt _ (by omega)
  split_ifs at hx <;> simp only [List.mem_cons, List.not_mem_nil, or_false] at hx <;> omega

theorem escapeStr_lt (s : Str) (hs : ∀ b ∈ s, b < 256) : ∀ x ∈ escapeStr s, x < 256 := by
  induction s with
  | nil => intro x hx; simp [escapeStr] at hx
  | cons b t ih =>
    intro x hx
    simp only [escapeStr, List.mem_append] at hx
    rcases hx with hx | hx
    · exact escByte_lt b x (hs b (by simp)) hx
    · exact ih (fun y hy => hs y (by simp [hy])) x hx

theorem jsonStrLit_lt (s : Str) (hs : ∀ b ∈ s, b < 256) : ∀ x ∈ jsonStrLit s, x < 256 := by
  intro x hx
  simp only [jsonStrLit, List.mem_cons, List.mem_append] at hx
  rcases hx with hx | hx | hx
  · omega
  · exact escapeStr_lt s hs x hx
  · simp at hx; omega

theorem natLit_lt (n : Nat) : ∀ x ∈ natLit n, x < 256 := by
  intro x hx
  have := natLit_digits n x hx
  simp [isDigitB] at this
  omega

theorem stringifyPayload_lt (sub sid : Str) (iat expv : Nat)
    (hsub : ∀ b ∈ sub, b < 256) (hsid : ∀ b ∈ sid, b < 256) :
    ∀ x ∈ stringifyPayload sub sid iat expv, x < 256 := by
  intro x hx
  have hsubk : ∀ b ∈ strBytes "sub", b < 256 := by decide
  have hsidk : ∀ b ∈ strBytes "sid", b < 256 := by decide
  have hiatk : ∀ b ∈ strBytes "iat", b < 256 := by decide
  have hexpk : ∀ b ∈ strBytes "exp", b < 256 := by decide
  simp only [stringifyPayload, List.mem_cons, List.mem_append] at hx
  rcases hx with hx | hx | hx | hx | hx | hx | hx | hx | hx | hx | hx | hx | hx | hx | hx | hx
  · omega
  · exact jsonStrLit_lt _ hsubk x hx
  · omega
  · exact jsonStrLit_lt _ hsub x hx
  · omega
  · exact jsonStrLit_lt _ hsidk x hx
  · omega
  · exact jsonStrLit_lt _ hsid x hx
  · omega
  · exact jsonStrLit_lt _ hiatk x hx
  · omega
  · exact natLit_lt iat x hx
  · omega
  · exact jsonStrLit_lt _ hexpk x hx
  · omega
  · rcases hx with hx | hx | hx
    · exact natLit_lt expv x hx
    · omega
    · simp at hx

/-- Field access on a parsed payload object, for the three fields the
claims use. -/
theorem getField_payload (sub sid : Str) (iat expv : Nat) :
    getField [(strBytes "sub", JVal.str sub), (strBytes "sid", JVal.str sid),
              (strBytes "iat", JVal.num iat), (strBytes "exp", JVal.num expv)]
        (strBytes "exp") = some (JVal.num expv) ∧
    getField [(strBytes "sub", JVal.str sub), (strBytes "sid", JVal.str sid),
              (strBytes "iat", JVal.num iat), (strBytes "exp", JVal.num expv)]
        (strBytes "sub") = some (JVal.str sub) ∧
    getField [(strBytes "sub", JVal.str sub), (strBytes "sid", JVal.str sid),
              (strBytes "iat", JVal.num iat), (strBytes "exp", JVal.num expv)]
        (strBytes "sid") = some (JVal.str sid) := by
  have h1 : strBytes "iat" ≠ strBytes "exp" := by decide
  have h2 : strBytes "sid" ≠ strBytes "exp" := by decide
  have h3 : strBytes "sub" ≠ strBytes "exp" := by decide
  have h4 : strBytes "sub" ≠ strBytes "sid" := by decide
  have h5 : strBytes "exp" ≠ strBytes "sub" := by decide
  have h6 : strBytes "iat" ≠ strBytes "sub" := by decide
  have h7 : strBytes "sid" ≠ strBytes "sub" := by decide
  have h8 : strBytes "exp" ≠ strBytes "sid" := by decide
  have h9 : strBytes "iat" ≠ strBytes "sid" := by decide
  refine ⟨?_, ?_, ?_⟩ <;> simp [getField, h1, h2, h3, h4, h5, h6, h7, h8, h9]

/-- Verifying a freshly signed token at or before its expiry returns the
signed payload object. -/
theorem verifyJwt_of_signJwt (hmac : Str → Str → Str) (secret : Str) (hsec : secret ≠ [])
    (sub sid : Str) (hsub : ∀ b ∈ sub, b < 256) (hsid : ∀ b ∈ sid, b < 256)
    (now ttl vNow : Nat) (hv : vNow ≤ now + ttl) :
    verifyJwt hmac (some secret) vNow
      (base64UrlEncode headerJson ++
        46 :: (base64UrlEncode (stringifyPayload sub sid now (now + ttl)) ++
        46 :: base64UrlEncode (hmac secret
          (base64UrlEncode headerJson ++
            46 :: base64UrlEncode (stringifyPayload sub sid now (now + ttl)))))) =
      .ok (some [(strBytes "sub", JVal.str sub), (strBytes "sid", JVal.str sid),
                 (strBytes "iat", JVal.num now), (strBytes "exp", JVal.num (now + ttl))]) := by
  have hsplit := jsSplit_three 46
    (base64UrlEncode headerJson)
    (base64UrlEncode (stringifyPayload sub sid now (now + ttl)))
    (base64UrlEncode (hmac secret
      (base64UrlEncode headerJson ++
        46 :: base64UrlEncode (stringifyPayload sub sid now (now + ttl)))))
    (dot_not_mem_base64UrlEncode _) (dot_not_mem_base64UrlEncode _)
    (dot_not_mem_base64UrlEncode _)
  unfold verifyJwt
  rw [hsplit]
  simp only [getSecret, if_neg hsec, eq_self_iff_true, and_self, if_true]
  rw [base64UrlDecode_encode _ (stringifyPayload_lt sub sid now (now + ttl) hsub hsid)]
  have hexp : ¬ (vNow > now + ttl) := by omega
  simp only [parseJson_stringifyPayload sub sid now (now + ttl),
    (getField_payload sub sid now (now + ttl)).1, hexp, if_false]

/-- C5. For every subject and sessionId, signing a token (`signJwt` with
`{sub, sid}` and ttl 3600 seconds) and verifying it before expiry
(`verifyJwt`) returns the original claims: the verified payload's `sub`
equals the signed subject and its `sid` equals the signed sessionId. -/
theorem sign_verify_roundtrip_C5 (hmac : Str → Str → Str) (secret : Str) (hsec : secret ≠ [])
    (sub sid : Str) (hsub : ∀ x ∈ sub, x < 256) (hsid : ∀ x ∈ sid, x < 256)
    (now vNow : Nat) (hv : vNow ≤ now + 3600) (token : Str)
    (htok : signJwt hmac (some secret) now sub sid 3600 = .ok token) :
    ∃ payload : JObj, verifyJwt hmac (some secret) vNow token = .ok (some payload) ∧
      getField payload (strBytes "sub") = some (JVal.str sub) ∧
      getField payload (strBytes "sid") = some (JVal.str sid) := by
  rw [signJwt_eq hmac secret hsec now sub sid 3600] at htok
  injection htok with htok
  subst htok
  exact ⟨_, verifyJwt_of_signJwt hmac secret hsec sub sid hsub hsid now 3600 vNow hv,
    (getField_payload sub sid now (now + 3600)).2.1,
    (getField_payload sub sid now (now + 3600)).2.2⟩

/-- Witness for C5 at `sub = "u1"`, `sid = "s1"`, secret `"s"`, time 0. -/
theorem sign_verify_roundtrip_C5_witness :
    ∃ payload : JObj,
      verifyJwt (fun _ m => m.take 4) (some [115]) 0
        (base64UrlEncode headerJson ++
          46 :: (base64UrlEncode
            (stringifyPayload (strBytes "u1") (strBytes "s1") 0 (0 + 3600)) ++
          46 :: base64UrlEncode ((fun (_ m : Str) => m.take 4)
            ([115])
            (base64UrlEncode headerJson ++
              46 :: base64UrlEncode
                (stringifyPayload (strBytes "u1") (strBytes "s1") 0 (0 + 3600)))))) =
        .ok (some payload) ∧
      getField payload (strBytes "sub") = some (JVal.str (strBytes "u1")) ∧
      getField payload (strBytes "sid") = some (JVal.str (strBytes "s1")) :=
  sign_verify_roundtrip_C5 (fun _ m => m.take 4) [115] (by decide)
    (strBytes "u1") (strBytes "s1") (by decide) (by decide) 0 0 (by decide) _ rfl

/-- C6. A token whose parsed payload has a numeric `exp` in the past is
rejected at verification — by `verifyJwt` (`null`) for any signature, hence
in particular a correct one, and by the `verifyJwtLib` variant
(`Token expired`) when the signature is correct. -/
theorem expired_token_rejected_C6 (hmac : Str → Str → Str) (secret : Str) (hsec : secret ≠ [])
    (now : Nat) (h b sg : Str) (hdh : 46 ∉ h) (hdb : 46 ∉ b) (hds : 46 ∉ sg)
    (bodyBytes : List Nat) (payload : JObj) (e : Nat)
    (hdecode : base64UrlDecode b = some bodyBytes)
    (hparse : parseJson bodyBytes = some payload)
    (hexp : getField payload (strBytes "exp") = some (JVal.num e))
    (hlt : e < now) :
    verifyJwt hmac (some secret) now (h ++ 46 :: (b ++ 46 :: sg)) = .ok none ∧
      (sg = base64UrlEncode (hmac secret (h ++ 46 :: b)) →
        verifyJwtLib hmac secret now (h ++ 46 :: (b ++ 46 :: sg)) =
          .error "Token expired") := by
  have hsplit := jsSplit_three 46 h b sg hdh hdb hds
  constructor
  · unfold verifyJwt
    rw [hsplit]
    simp only [getSecret, if_neg hsec]
    by_cases hsg : sg = base64UrlEncode (hmac secret (h ++ 46 :: b))
    · subst hsg
      simp only [eq_self_iff_true, and_self, if_true]
      rw [hdecode]
      simp only [hparse, hexp]
      rw [if_pos hlt]
    · rw [if_neg (fun hcon => hsg hcon.2)]
  · intro hsg
    unfold verifyJwtLib
    rw [hsplit]
    simp only [if_pos hsg.symm]
    rw [hdecode]
    simp only [hparse, hexp]
    rw [if_pos hlt]

/-- Witness for C6: a payload with `exp = 0` verified at time 1. -/
theorem expired_token_rejected_C6_witness :
    verifyJwt (fun _ m => m.take 4) (some [115]) 1
      (base64UrlEncode headerJson ++
        46 :: (base64UrlEncode (stringifyPayload (strBytes "u1") (strBytes "s1") 0 0) ++
        46 :: [95])) = .ok none ∧
    (([95] : Str) = base64UrlEncode ((fun (_ m : Str) => m.take 4) [115]
        (base64UrlEncode headerJson ++
          46 :: base64UrlEncode (stringifyPayload (strBytes "u1") (strBytes "s1") 0 0))) →
      verifyJwtLib (fun _ m => m.take 4) [115] 1
        (base64UrlEncode headerJson ++
          46 :: (base64UrlEncode (stringifyPayload (strBytes "u1") (strBytes "s1") 0 0) ++
          46 :: [95])) = .error "Token expired") :=
  expired_token_rejected_C6 (fun _ m => m.take 4) [115] (by decide) 1
    (base64UrlEncode headerJson)
    (base64UrlEncode (stringifyPayload (strBytes "u1") (strBytes "s1") 0 0))
    [95]
    (dot_not_mem_base64UrlEncode _) (dot_not_mem_base64UrlEncode _) (by decide)
    (stringifyPayload (strBytes "u1") (strBytes "s1") 0 0)
    [(strBytes "sub", JVal.str (strBytes "u1")), (strBytes "sid", JVal.str (strBytes "s1")),
     (strBytes "iat", JVal.num 0), (strBytes "exp", JVal.num 0)]
    0
    (base64UrlDecode_encode _ (by decide))
    (parseJson_stringifyPayload _ _ _ _)
    ((getField_payload _ _ _ _).1)
    (by decide)

/-- C10. A correctly signed token whose parsed payload has no `exp`
field is accepted by `verifyJwt` at any time (the JS comparison
`now > undefined` is false), and likewise by the `verifyJwtLib` variant
(explicit `exp !== undefined` guard). -/
theorem no_exp_token_accepted_C10 (hmac : Str → Str → Str) (secret : Str)
    (hsec : secret ≠ []) (now : Nat) (h b : Str) (hdh : 46 ∉ h) (hdb : 46 ∉ b)
    (bodyBytes : List Nat) (payload : JObj)
    (hdecode : base64UrlDecode b = some bodyBytes)
    (hparse : parseJson bodyBytes = some payload)
    (hexp : getField payload (strBytes "exp") = none) :
    verifyJwt hmac (some secret) now
        (h ++ 46 :: (b ++ 46 :: base64UrlEncode (hmac secret (h ++ 46 :: b)))) =
      .ok (some payload) ∧
    verifyJwtLib hmac secret now
        (h ++ 46 :: (b ++ 46 :: base64UrlEncode (hmac secret (h ++ 46 :: b)))) =
      .ok payload := by
  have hsplit := jsSplit_three 46 h b (base64UrlEncode (hmac secret (h ++ 46 :: b)))
    hdh hdb (dot_not_mem_base64UrlEncode _)
  constructor
  · unfold verifyJwt
    rw [hsplit]
    simp only [getSecret, if_neg hsec, eq_self_iff_true, and_self, if_true]
    rw [hdecode]
    simp only [hparse, hexp]
  · unfold verifyJwtLib
    rw [hsplit]
    simp only [eq_self_iff_true, if_true]
    rw [hdecode]
    simp only [hparse, hexp]

/-- Witness for C10: a correctly signed body `\x7b"sub":"u1"\x7d` with no
`exp` member is accepted at time 1000000. -/
theorem no_exp_token_accepted_C10_witness :
    verifyJwt (fun _ m => m.take 4) (some [115]) 1000000
        (base64UrlEncode headerJson ++
          46 :: (base64UrlEncode
            (123 :: (jsonStrLit (strBytes "sub") ++ 58 :: (jsonStrLit (strBytes "u1") ++ [125]))) ++
          46 :: base64UrlEncode ((fun (_ m : Str) => m.take 4) [115]
            (base64UrlEncode headerJson ++
              46 :: base64UrlEncode
                (123 :: (jsonStrLit (strBytes "sub") ++
                  58 :: (jsonStrLit (strBytes "u1") ++ [125]))))))) =
      .ok (some [(strBytes "sub", JVal.str (strBytes "u1"))]) ∧
    verifyJwtLib (fun _ m => m.take 4) [115] 1000000
        (base64UrlEncode headerJson ++
          46 :: (base64UrlEncode
            (123 :: (jsonStrLit (strBytes "sub") ++ 58 :: (jsonStrLit (strBytes "u1") ++ [125]))) ++
          46 :: base64UrlEncode ((fun (_ m : Str) => m.take 4) [115]
            (base64UrlEncode headerJson ++
              46 :: base64UrlEncode
                (123 :: (jsonStrLit (strBytes "sub") ++
                  58 :: (jsonStrLit (strBytes "u1") ++ [125]))))))) =
      .ok [(strBytes "sub", JVal.str (strBytes "u1"))] :=
  no_exp_token_accepted_C10 (fun _ m => m.take 4) [115] (by decide) 1000000
    (base64UrlEncode headerJson)
    (base64UrlEncode
      (123 :: (jsonStrLit (strBytes "sub") ++ 58 :: (jsonStrLit (strBytes "u1") ++ [125]))))
    (dot_not_mem_base64UrlEncode _) (dot_not_mem_base64UrlEncode _)
    (123 :: (jsonStrLit (strBytes "sub") ++ 58 :: (jsonStrLit (strBytes "u1") ++ [125])))
    [(strBytes "sub", JVal.str (strBytes "u1"))]
    (base64UrlDecode_encode _ (by decide))
    (by decide)
    (by decide)

/-- C7 counterexample: with no `JWT_SECRET` in the environment, an
individual `signJwt` call does fail (throws), contradicting the claim that
no per-call failure can be caused by a missing secret. -/
theorem secret_per_call_C7_counterexample :
    signJwt (fun _ m => m.take 4) none 0 (strBytes "u1") (strBytes "s1") 3600 =
      .error "JWT_SECRET environment variable is not set" := rfl

/-- C7 (amended). `getSecret` reads `process.env.JWT_SECRET` inside
every `signJwt`/`verifyJwt` call, and a missing secret makes that
individual call throw; `buildConfig` treats the missing secret as fatal
only when `NODE_ENV` is `production`. -/
theorem secret_per_call_C7_amended (hmac : Str → Str → Str) (now : Nat)
    (sub sid : Str) (ttl : Nat) (h b sg : Str)
    (hdh : 46 ∉ h) (hdb : 46 ∉ b) (hds : 46 ∉ sg) (dbUrl : Option Str) :
    signJwt hmac none now sub sid ttl =
      .error "JWT_SECRET environment variable is not set" ∧
    verifyJwt hmac none now (h ++ 46 :: (b ++ 46 :: sg)) =
      .error "JWT_SECRET environment variable is not set" ∧
    buildConfigCheck .development dbUrl none = .ok () ∧
    buildConfigCheck .test dbUrl none = .ok () ∧
    buildConfigCheck .production (some [100]) none =
      .error "JWT_SECRET is required in production" := by
  refine ⟨rfl, ?_, ?_, ?_, rfl⟩
  · unfold verifyJwt
    rw [jsSplit_three 46 h b sg hdh hdb hds]
    rfl
  · rfl
  · rfl

/-- Witness for the amended C7 at concrete segments and env. -/
theorem secret_per_call_C7_witness :
    signJwt (fun _ m => m.take 4) none 7 (strBytes "u1") (strBytes "s1") 60 =
      .error "JWT_SECRET environment variable is not set" ∧
    verifyJwt (fun _ m => m.take 4) none 7 ([97] ++ 46 :: ([98] ++ 46 :: [99])) =
      .error "JWT_SECRET environment variable is not set" ∧
    buildConfigCheck .development none none = .ok () ∧
    buildConfigCheck .test none none = .ok () ∧
    buildConfigCheck .production (some [100]) none =
      .error "JWT_SECRET is required in production" :=
  secret_per_call_C7_amended (fun _ m => m.take 4) 7 (strBytes "u1") (strBytes "s1") 60
    [97] [98] [99] (by decide) (by decide) (by decide) none

/-! ## SessionRepository (`src/db/repositories/sessionRepository.ts`)

SQL tables are lists of rows in insertion order; `LIMIT 1` is `head?`;
`mapSession` is the identity on the modelled columns. -/

/-- A row of the `sessions` table. -/
structure SessionRow : Type where
  id : Str
  user_id : Str
  token_hash : Str
  expires_at : Nat
  created_at : Nat
deriving DecidableEq

/-- Model of `SessionRepository.findById`: `SELECT * FROM sessions WHERE id = $1
LIMIT 1`, returning the mapped row or `null`.  The query has no condition
on `expires_at`. -/
def findById (sessions : List SessionRow) (i : Str) : Option SessionRow :=
  (sessions.filter (fun s => s.id = i)).head?

/-! ## PasswordResetService (`PasswordResetService` in the reset module)

`hashToken` and the service's own private `hashPassword` are both
`createHash('sha256').update(x).digest('hex')`, modelled by one opaque
parameter `sha256Hex`; `scrypt` is the KDF parameter of the separate
`src/utils/password.ts` helpers. -/

/-- A row of the `users` table (the columns the flows touch). -/
structure UserRow : Type where
  id : Str
  email : Str
  password_hash : Str
deriving DecidableEq

/-- A row of the `password_reset_tokens` table. -/
structure ResetTokenRow : Type where
  id : Str
  user_id : Str
  token_hash : Str
  expires_at : Nat
  used_at : Option Nat
deriving DecidableEq

/-- The storage the reset service touches. -/
structure ResetDb : Type where
  users : List UserRow
  reset_tokens : List ResetTokenRow
deriving DecidableEq

/-- Model of `PasswordResetService.requestPasswordReset`: normalise the email
(trim + lower-case), look the user up by `LOWER(email)`, silently return on
a miss; otherwise insert a token row holding only the SHA-256 digest of the
fresh random token (`randToken`, the `randomBytes(32).toString('hex')`
oracle) with expiry `now + ttlMinutes` minutes.  The default email sender
is a no-op, so the call always resolves (`.ok`). -/
def requestPasswordReset (sha256Hex : Str → Str) (randToken : Str) (now ttlMinutes : Nat)
    (newId : Str) (db : ResetDb) (emailRaw : Str) : Except String ResetDb :=
  let email := jsToLower (jsTrim emailRaw)
  match (db.users.filter (fun u => jsToLower u.email = email)).head? with
  | none => .ok db
  | some user =>
    let tokenHash := sha256Hex randToken
    let expiresAt := now + ttlMinutes * 60000
    .ok { db with reset_tokens :=
      db.reset_tokens ++ [⟨newId, user.id, tokenHash, expiresAt, none⟩] }

/-- Model of `PasswordResetService.resetPassword`: hash the raw token, select the
matching row (`FOR UPDATE`), roll back returning `false` when there is no
row, the row is used (`used_at` truthy) or expired
(`new Date(expires_at) < new Date()`); otherwise write the service's own
`hashPassword(newPassword)` — a bare SHA-256 hex digest — into
`users.password_hash`, stamp `used_at = NOW()`, commit and return `true`.
The transaction is atomic, so the model updates both tables in one step. -/
def resetPassword (sha256Hex : Str → Str) (now : Nat) (db : ResetDb)
    (tokenRaw newPassword : Str) : ResetDb × Bool :=
  let tokenHash := sha256Hex tokenRaw
  match (db.reset_tokens.filter (fun r => r.token_hash = tokenHash)).head? with
  | none => (db, false)
  | some row =>
    if row.used_at.isSome ∨ row.expires_at < now then (db, false)
    else
      let passwordHash := sha256Hex newPassword
      ({ users := db.users.map (fun u =>
            if u.id = row.user_id then { u with password_hash := passwordHash } else u),
         reset_tokens := db.reset_tokens.map (fun r =>
            if r.id = row.id then { r with used_at := some now } else r) }, true)

/-! ## PasswordHasher (`src/utils/password.ts`) -/

/-- Model of `Buffer.toString('hex')` on a byte list (lower-case pairs). -/
def bytesToHex : List Nat → Str
  | [] => []
  | b :: t => hexDigit (b / 16 % 16) :: hexDigit (b % 16) :: bytesToHex t

/-- Model of `Buffer.from(s, 'hex')`: consume hex pairs, stopping at the first
invalid or unpaired character (Node semantics). -/
def hexToBytes : Str → List Nat
  | c1 :: c2 :: t =>
    match hexVal c1, hexVal c2 with
    | some hi, some lo => (hi * 16 + lo) :: hexToBytes t
    | _, _ => []
  | _ => []

/-- Model of `hashPassword` (`src/utils/password.ts`): `salt_hex:derivedKey_hex`,
with `scrypt plain salt keyLen` standing for the KDF call and `saltHex` for
the `randomBytes(16).toString('hex')` oracle. -/
def hashPassword (scrypt : Str → Str → Nat → Str) (saltHex plain : Str) : Str :=
  saltHex ++ 58 :: bytesToHex (scrypt plain saltHex 64)

/-- Model of `comparePassword` (`src/utils/password.ts`): split the stored value on
`:`; a falsy salt or hash fails closed; otherwise recompute the key and
compare length, then bytes (`timingSafeEqual`). -/
def comparePassword (scrypt : Str → Str → Nat → Str) (plain stored : Str) : Bool :=
  let parts := jsSplit 58 stored
  let salt := (parts.head?).getD []
  let storedHash := ((parts.drop 1).head?).getD []
  if salt = [] ∨ storedHash = [] then false
  else
    let derivedKey := scrypt plain salt 64
    let storedBuffer := hexToBytes storedHash
    if derivedKey.length ≠ storedBuffer.length then false
    else derivedKey == storedBuffer

/-- A concrete stored session that is long past its expiry. -/
def expiredSession : SessionRow :=
  ⟨strBytes "s1", strBytes "u1", strBytes "h", 10, 0⟩

/-- C3 counterexample: at time 100 the session with `expires_at = 10` is
still returned by `findById` as present — it is not resolved as absent. -/
theorem session_expiry_C3_counterexample :
    findById [expiredSession] (strBytes "s1") = some expiredSession ∧
      expiredSession.expires_at < 100 := by
  exact ⟨rfl, by decide⟩

/-- C3 (amended). `findById` returns the first stored row whose `id`
matches, with no filter on `expires_at`: a physically present session row
is returned as present even when `expires_at` lies in the past. -/
theorem session_expiry_C3_amended (pre post : List SessionRow) (row : SessionRow)
    (now : Nat) (hpre : ∀ p ∈ pre, p.id ≠ row.id) (_hexp : row.expires_at < now) :
    findById (pre ++ row :: post) row.id = some row := by
  unfold findById
  rw [List.filter_append]
  have hpre2 : pre.filter (fun s => s.id = row.id) = [] := by
    rw [List.filter_eq_nil_iff]
    intro a ha
    simp [hpre a ha]
  rw [hpre2, List.nil_append, List.filter_cons]
  simp

/-- Witness for the amended C3 at a concrete store and clock. -/
theorem session_expiry_C3_witness :
    findById ([⟨strBytes "s2", strBytes "u2", strBytes "g", 99, 0⟩] ++
        expiredSession :: []) (strBytes "s1") = some expiredSession :=
  session_expiry_C3_amended [⟨strBytes "s2", strBytes "u2", strBytes "g", 99, 0⟩] []
    expiredSession 100 (by decide) (by decide)

/-- C4. `requestPasswordReset` on an email whose normalised form matches
no account resolves successfully with the database — in particular the
token table — unchanged, and every call (existing account or not) resolves
successfully, so the two runs are outwardly indistinguishable. -/
theorem request_reset_ghost_C4 (sha256Hex : Str → Str) (randToken : Str)
    (now ttl : Nat) (newId : Str) (db : ResetDb) (emailRaw : Str)
    (hghost : ∀ u ∈ db.users, jsToLower u.email ≠ jsToLower (jsTrim emailRaw)) :
    requestPasswordReset sha256Hex randToken now ttl newId db emailRaw = .ok db ∧
    ∀ (db2 : ResetDb) (email2 rand2 id2 : Str),
      ∃ db3, requestPasswordReset sha256Hex rand2 now ttl id2 db2 email2 = .ok db3 := by
  constructor
  · unfold requestPasswordReset
    have hnil : db.users.filter
        (fun u => jsToLower u.email = jsToLower (jsTrim emailRaw)) = [] := by
      rw [List.filter_eq_nil_iff]
      intro u hu
      simp [hghost u hu]
    simp [hnil]
  · intro db2 email2 rand2 id2
    unfold requestPasswordReset
    cases hh : (db2.users.filter
        (fun u => jsToLower u.email = jsToLower (jsTrim email2))).head? with
    | none => exact ⟨db2, by simp [hh]⟩
    | some user =>
      refine ⟨{ db2 with reset_tokens := db2.reset_tokens ++
        [⟨id2, user.id, sha256Hex rand2, now + ttl * 60000, none⟩] }, ?_⟩
      simp [hh]

/-- Witness for C4: no user account matches `GHOST@example.com `. -/
theorem request_reset_ghost_C4_witness :
    requestPasswordReset (fun s => s) (strBytes "r") 0 60 (strBytes "t1")
        ⟨[⟨strBytes "u1", strBytes "alice@example.com", strBytes "h"⟩], []⟩
        (strBytes " GHOST@example.com ") =
      .ok ⟨[⟨strBytes "u1", strBytes "alice@example.com", strBytes "h"⟩], []⟩ ∧
    ∀ (db2 : ResetDb) (email2 rand2 id2 : Str),
      ∃ db3, requestPasswordReset (fun s => s) rand2 0 60 id2 db2 email2 = .ok db3 :=
  request_reset_ghost_C4 (fun s => s) (strBytes "r") 0 60 (strBytes "t1")
    ⟨[⟨strBytes "u1", strBytes "alice@example.com", strBytes "h"⟩], []⟩
    (strBytes " GHOST@example.com ") (by decide)

theorem head?_mem {α : Type} {l : List α} {a : α} (h : l.head? = some a) : a ∈ l := by
  cases l with
  | nil => simp at h
  | cons x xs => simp at h; simp [h]

theorem head?_map {α β : Type} (f : α → β) (l : List α) :
    (l.map f).head? = l.head?.map f := by
  cases l <;> rfl

theorem filter_map_comm {α : Type} (f : α → α) (p : α → Bool)
    (hp : ∀ a, p (f a) = p a) (l : List α) :
    (l.map f).filter p = (l.filter p).map f := by
  induction l with
  | nil => rfl
  | cons x xs ih =>
    simp only [List.map_cons, List.filter_cons, hp x]
    split <;> simp [ih]

/-- C1 (code bug). When `resetPassword` succeeds, the credential it
writes is `PasswordResetService.hashPassword(newPassword)` — a bare SHA-256
hex digest with no salt and no `:` separator — not the scrypt
`salt_hex:derivedKey_hex` encoding of `hashPassword` in
`src/utils/password.ts`; consequently `comparePassword(newPassword, stored)`
returns `false`, not `true`. -/
theorem reset_password_hash_C1 (sha256Hex : Str → Str) (scrypt : Str → Str → Nat → Str)
    (hsha : ∀ s, (58 : Nat) ∉ sha256Hex s)
    (now : Nat) (db db2 : ResetDb) (tokenRaw newPassword : Str)
    (hrun : resetPassword sha256Hex now db tokenRaw newPassword = (db2, true)) :
    (∃ row ∈ db.reset_tokens,
        row.token_hash = sha256Hex tokenRaw ∧
        db2.users = db.users.map (fun u =>
          if u.id = row.user_id then { u with password_hash := sha256Hex newPassword }
          else u)) ∧
    comparePassword scrypt newPassword (sha256Hex newPassword) = false ∧
    ∀ saltHex : Str, sha256Hex newPassword ≠ hashPassword scrypt saltHex newPassword := by
  refine ⟨?_, ?_, ?_⟩
  · unfold resetPassword at hrun
    cases hh : (db.reset_tokens.filter
        (fun r => r.token_hash = sha256Hex tokenRaw)).head? with
    | none => simp [hh] at hrun
    | some row =>
      simp only [hh] at hrun
      split at hrun
      · simp at hrun
      · have hmem := head?_mem hh
        rw [List.mem_filter] at hmem
        refine ⟨row, hmem.1, by simpa using hmem.2, ?_⟩
        injection hrun with h1 h2
        rw [← h1]
  · unfold comparePassword
    rw [jsSplit_no_sep 58 _ (hsha newPassword)]
    simp
  · intro saltHex hcon
    have hmem : (58 : Nat) ∈ sha256Hex newPassword := by
      rw [hcon]
      simp [hashPassword]
    exact hsha newPassword hmem

/-- Witness for C1: a concrete user, token row and SHA-256 stand-in. -/
theorem reset_password_hash_C1_witness :
    (∃ row ∈ ([⟨strBytes "t1", strBytes "u1", [97, 98], 100, none⟩] :
          List ResetTokenRow),
        row.token_hash = (fun (_ : Str) => [97, 98]) (strBytes "tok") ∧
        (⟨[⟨strBytes "u1", strBytes "e", [97, 98]⟩], [⟨strBytes "t1", strBytes "u1",
            [97, 98], 100, some 0⟩]⟩ : ResetDb).users =
          ([⟨strBytes "u1", strBytes "e", strBytes "old"⟩] : List UserRow).map (fun u =>
            if u.id = row.user_id then
              { u with password_hash := (fun (_ : Str) => [97, 98]) (strBytes "pw") }
            else u)) ∧
    comparePassword (fun _ _ _ => [0]) (strBytes "pw")
        ((fun (_ : Str) => [97, 98]) (strBytes "pw")) = false ∧
    ∀ saltHex : Str, (fun (_ : Str) => [97, 98]) (strBytes "pw") ≠
        hashPassword (fun _ _ _ => [0]) saltHex (strBytes "pw") :=
  reset_password_hash_C1 (fun _ => [97, 98]) (fun _ _ _ => [0])
    (by intro s; show (58 : Nat) ∉ [97, 98]; decide) 0
    ⟨[⟨strBytes "u1", strBytes "e", strBytes "old"⟩],
     [⟨strBytes "t1", strBytes "u1", [97, 98], 100, none⟩]⟩
    ⟨[⟨strBytes "u1", strBytes "e", [97, 98]⟩],
     [⟨strBytes "t1", strBytes "u1", [97, 98], 100, some 0⟩]⟩
    (strBytes "tok") (strBytes "pw") (by decide)

/-- A token row expiring exactly at instant 5. -/
def resetRow0 : ResetTokenRow := ⟨strBytes "t1", strBytes "u1", [97, 98], 5, none⟩

/-- A database holding one user and `resetRow0`. -/
def resetDb0 : ResetDb :=
  ⟨[⟨strBytes "u1", strBytes "e", strBytes "old"⟩], [resetRow0]⟩

/-- C2 counterexample: at `now = expires_at` (the boundary instant) the
redemption succeeds, although the claim's validity condition
`expiresAt > now` is false — the code tests `expires_at < now`, not `≤`. -/
theorem reset_redeem_C2_counterexample :
    (resetPassword (fun _ => [97, 98]) 5 resetDb0 (strBytes "tok") (strBytes "pw")).2 =
      true ∧
    resetRow0.used_at = none ∧ ¬ (5 < resetRow0.expires_at) := by decide

/-- C2 (amended). `resetPassword` returns `true` exactly when the
matching token row is unused and `expiresAt ≥ now` (boundary inclusive);
on `false` the database is unchanged; and after a success a second
redemption of the same token fails. -/
theorem reset_redeem_C2_amended (sha256Hex : Str → Str) (now now2 : Nat)
    (db : ResetDb) (tokenRaw newPassword newPassword2 : Str) :
    ((resetPassword sha256Hex now db tokenRaw newPassword).2 = true ↔
      ∃ row, (db.reset_tokens.filter
          (fun r => r.token_hash = sha256Hex tokenRaw)).head? = some row ∧
        row.used_at = none ∧ now ≤ row.expires_at) ∧
    ((resetPassword sha256Hex now db tokenRaw newPassword).2 = false →
      (resetPassword sha256Hex now db tokenRaw newPassword).1 = db) ∧
    ((resetPassword sha256Hex now db tokenRaw newPassword).2 = true →
      (resetPassword sha256Hex now2
        (resetPassword sha256Hex now db tokenRaw newPassword).1
        tokenRaw newPassword2).2 = false) := by
  unfold resetPassword
  cases hh : (db.reset_tokens.filter
      (fun r => r.token_hash = sha256Hex tokenRaw)).head? with
  | none =>
    refine ⟨?_, ?_, ?_⟩ <;> simp [hh]
  | some row =>
    by_cases hcond : row.used_at.isSome ∨ row.expires_at < now
    · refine ⟨?_, ?_, ?_⟩ <;> simp only [hh, if_pos hcond]
      · constructor
        · intro hfalse; simp at hfalse
        · rintro ⟨row2, hrow2, hused, hle⟩
          injection hrow2 with hrow2
          subst hrow2
          rcases hcond with hc | hc
          · rw [hused] at hc; simp at hc
          · omega
      · intro _; trivial
      · intro hfalse; simp at hfalse
    · have hused : row.used_at = none := by
        rcases hu : row.used_at with _ | v
        · rfl
        · exact absurd (Or.inl (by simp [hu])) hcond
      have hle : now ≤ row.expires_at := by omega
      refine ⟨?_, ?_, ?_⟩ <;> simp only [hh, if_neg hcond]
      · simp only [true_iff]
        exact ⟨row, rfl, hused, hle⟩
      · intro hfalse; simp at hfalse
      · intro _
        have hp : ∀ r : ResetTokenRow,
            (decide ((if r.id = row.id then { r with used_at := some now }
                else r).token_hash = sha256Hex tokenRaw)) =
              decide (r.token_hash = sha256Hex tokenRaw) := by
          intro r
          by_cases hr : r.id = row.id <;> simp [hr]
        rw [filter_map_comm _ _ hp, head?_map, hh]
        simp

/-! ## RateLimiter (`src/middleware/rateLimit.ts`)

The `Map` of windows is an ordered association list with unique keys
(`storeSet` overwrites in place or appends); the in-place `count += 1`
becomes an explicit write-back. -/

/-- A fixed-window counter entry (`WindowEntry`). -/
structure WindowEntry : Type where
  count : Nat
  resetAt : Nat
deriving DecidableEq

/-- Model of `Map.get` on the window store. -/
def storeGet (w : List (Str × WindowEntry)) (key : Str) : Option WindowEntry :=
  ((w.filter (fun p => p.1 = key)).head?).map Prod.snd

/-- Model of `Map.set` on the window store: overwrite in place, else append. -/
def storeSet (w : List (Str × WindowEntry)) (key : Str) (e : WindowEntry) :
    List (Str × WindowEntry) :=
  if w.any (fun p => p.1 = key) then
    w.map (fun p => if p.1 = key then (key, e) else p)
  else w ++ [(key, e)]

/-- Model of `InMemoryRateLimitStore.increment`: open a fresh window on first touch
or at/after `resetAt` (`count = 1`, `resetAt = now + windowMs`), otherwise
bump the counter.  Returns the updated store with `(count, resetAt)`. -/
def increment (w : List (Str × WindowEntry)) (key : Str) (windowMs now : Nat) :
    List (Str × WindowEntry) × Nat × Nat :=
  match storeGet w key with
  | none => (storeSet w key ⟨1, now + windowMs⟩, 1, now + windowMs)
  | some existing =>
    if now ≥ existing.resetAt then
      (storeSet w key ⟨1, now + windowMs⟩, 1, now + windowMs)
    else
      (storeSet w key ⟨existing.count + 1, existing.resetAt⟩,
        existing.count + 1, existing.resetAt)

/-- Successive `increment` calls on one key at the given instants,
collecting each call's `(count, resetAt)`. -/
def incrementRun (w : List (Str × WindowEntry)) (key : Str) (windowMs : Nat) :
    List Nat → List (Nat × Nat)
  | [] => []
  | t :: ts =>
    let r := increment w key windowMs t
    (r.2.1, r.2.2) :: incrementRun r.1 key windowMs ts

theorem storeGet_map_set (key : Str) (e : WindowEntry) :
    ∀ w : List (Str × WindowEntry), (∃ p ∈ w, p.1 = key) →
      storeGet (w.map (fun p => if p.1 = key then (key, e) else p)) key = some e := by
  intro w
  induction w with
  | nil => intro h; simp at h
  | cons q qs ih =>
    intro h
    by_cases hq : q.1 = key
    · unfold storeGet
      simp [List.filter_cons, hq]
    · unfold storeGet at ih ⊢
      simp only [List.map_cons, if_neg hq, List.filter_cons]
      rw [if_neg (by simpa using hq)]
      apply ih
      obtain ⟨p0, hp0, hp0k⟩ := h
      rcases List.mem_cons.1 hp0 with hcase | hcase
      · subst hcase; exact absurd hp0k hq
      · exact ⟨p0, hcase, hp0k⟩

theorem storeGet_storeSet (w : List (Str × WindowEntry)) (key : Str) (e : WindowEntry) :
    storeGet (storeSet w key e) key = some e := by
  unfold storeSet
  by_cases hany : w.any (fun p => p.1 = key)
  · rw [if_pos hany]
    simp only [List.any_eq_true, decide_eq_true_eq] at hany
    exact storeGet_map_set key e w hany
  · rw [if_neg hany]
    unfold storeGet
    rw [List.filter_append]
    have hnil : w.filter (fun p => p.1 = key) = [] := by
      rw [List.filter_eq_nil_iff]
      intro p hp
      simp only [List.any_eq_true, not_exists] at hany
      intro hc
      exact hany p ⟨hp, hc⟩
    rw [hnil]
    simp

/-- Calls strictly before the open window's `resetAt` keep incrementing:
counts continue `c+1, c+2, …` and `resetAt` is unchanged. -/
theorem incrementRun_within (key : Str) (windowMs : Nat) :
    ∀ (ts : List Nat) (w : List (Str × WindowEntry)) (c R : Nat),
      storeGet w key = some ⟨c, R⟩ → (∀ t ∈ ts, t < R) →
      incrementRun w key windowMs ts =
        (List.range ts.length).map (fun i => (c + 1 + i, R)) := by
  intro ts
  induction ts with
  | nil => intro w c R _ _; rfl
  | cons t ts ih =>
    intro w c R hget hin
    have ht : t < R := hin t (by simp)
    have hstep : increment w key windowMs t = (storeSet w key ⟨c + 1, R⟩, c + 1, R) := by
      unfold increment
      rw [hget]
      have hnot : ¬ t ≥ R := by omega
      simp [hnot]
    unfold incrementRun
    rw [hstep]
    show (c + 1, R) :: incrementRun (storeSet w key ⟨c + 1, R⟩) key windowMs ts =
      (List.range (t :: ts).length).map (fun i => (c + 1 + i, R))
    rw [ih (storeSet w key ⟨c + 1, R⟩) (c + 1) R (storeGet_storeSet _ _ _)
        (fun t2 ht2 => hin t2 (List.mem_cons_of_mem t ht2))]
    simp only [List.length_cons, List.range_succ_eq_map, List.map_cons, List.map_map]
    refine congrArg₂ List.cons (by simp) ?_
    apply List.map_congr_left
    intro i _
    simp only [Function.comp_apply, Nat.succ_eq_add_one]
    congr 1
    omega

theorem range_map_threshold (n : Nat) :
    (List.range (n + 1)).map (fun i => decide (i + 1 ≤ n)) =
      List.replicate n true ++ [false] := by
  rw [List.range_succ, List.map_append]
  have hall : (List.range n).map (fun i => decide (i + 1 ≤ n)) =
      List.replicate n true := by
    refine List.eq_replicate_iff.2 ⟨by simp, ?_⟩
    intro b hb
    simp only [List.mem_map, List.mem_range] at hb
    obtain ⟨i, hi, rfl⟩ := hb
    simp
    omega
  rw [hall]
  simp only [List.map_cons, List.map_nil]
  rw [show (decide (n + 1 ≤ n)) = false from by simp]

/-- C8. With `limit = N`, `N + 1` successive `increment` calls on a
fresh key inside one window produce counts `1 … N+1`, so
`allowed = count ≤ limit` holds for calls `1 … N` and fails exactly on call
`N + 1`; and a call observed at or after the open window's `resetAt` starts
a fresh window with `count = 1`, `allowed = true`. -/
theorem rate_limit_window_C8 (limit windowMs : Nat) (hlim : 0 < limit) (key : Str)
    (w0 : List (Str × WindowEntry)) (hfresh : storeGet w0 key = none)
    (t1 : Nat) (ts : List Nat) (hlen : ts.length = limit)
    (hin : ∀ t ∈ ts, t < t1 + windowMs)
    (w2 : List (Str × WindowEntry)) (e : WindowEntry) (now2 : Nat)
    (hw2 : storeGet w2 key = some e) (hreset : e.resetAt ≤ now2) :
    (incrementRun w0 key windowMs (t1 :: ts)).map Prod.fst =
      (List.range (limit + 1)).map (fun i => i + 1) ∧
    (incrementRun w0 key windowMs (t1 :: ts)).map (fun p => decide (p.1 ≤ limit)) =
      List.replicate limit true ++ [false] ∧
    (increment w2 key windowMs now2).2.1 = 1 ∧
    decide ((increment w2 key windowMs now2).2.1 ≤ limit) = true := by
  have hfirst : increment w0 key windowMs t1 =
      (storeSet w0 key ⟨1, t1 + windowMs⟩, 1, t1 + windowMs) := by
    unfold increment
    rw [hfresh]
  have hrun : incrementRun w0 key windowMs (t1 :: ts) =
      (1, t1 + windowMs) ::
        (List.range ts.length).map (fun i => (1 + 1 + i, t1 + windowMs)) := by
    unfold incrementRun
    rw [hfirst]
    show (1, t1 + windowMs) ::
        incrementRun (storeSet w0 key ⟨1, t1 + windowMs⟩) key windowMs ts = _
    rw [incrementRun_within key windowMs ts (storeSet w0 key ⟨1, t1 + windowMs⟩) 1
        (t1 + windowMs) (storeGet_storeSet _ _ _) hin]
  have hfreshwin : increment w2 key windowMs now2 =
      (storeSet w2 key ⟨1, now2 + windowMs⟩, 1, now2 + windowMs) := by
    unfold increment
    rw [hw2]
    simp only []
    rw [if_pos (by omega)]
  have hcounts : (incrementRun w0 key windowMs (t1 :: ts)).map Prod.fst =
      (List.range (limit + 1)).map (fun i => i + 1) := by
    rw [hrun]
    simp only [List.map_cons, List.map_map, hlen, List.range_succ_eq_map]
    refine congrArg₂ List.cons rfl ?_
    apply List.map_congr_left
    intro i _
    show 1 + 1 + i = Nat.succ i + 1
    omega
  refine ⟨hcounts, ?_, ?_, ?_⟩
  · have hcomp : (incrementRun w0 key windowMs (t1 :: ts)).map (fun p => decide (p.1 ≤ limit)) =
        ((incrementRun w0 key windowMs (t1 :: ts)).map Prod.fst).map
          (fun c => decide (c ≤ limit)) := by
      rw [List.map_map]
      rfl
    rw [hcomp, hcounts, List.map_map]
    exact range_map_threshold limit
  · rw [hfreshwin]
  · rw [hfreshwin]
    simpa using hlim

/-- Witness for C8 at `limit = 2`, `windowMs = 10`, calls at 0, 1 and 2. -/
theorem rate_limit_window_C8_witness :
    (incrementRun [] (strBytes "k") 10 (0 :: [1, 2])).map Prod.fst =
      (List.range (2 + 1)).map (fun i => i + 1) ∧
    (incrementRun [] (strBytes "k") 10 (0 :: [1, 2])).map (fun p => decide (p.1 ≤ 2)) =
      List.replicate 2 true ++ [false] ∧
    (increment [(strBytes "k", ⟨5, 3⟩)] (strBytes "k") 10 7).2.1 = 1 ∧
    decide ((increment [(strBytes "k", ⟨5, 3⟩)] (strBytes "k") 10 7).2.1 ≤ 2) = true :=
  rate_limit_window_C8 2 10 (by decide) (strBytes "k") [] (by decide) 0 [1, 2]
    (by decide) (by decide) [(strBytes "k", ⟨5, 3⟩)] ⟨5, 3⟩ 7 (by decide) (by decide)

/-- The options object accepted by `createRateLimitMiddleware`
(absent fields are `none`; destructuring defaults apply only then). -/
structure RateLimitOptions : Type where
  limit : Option Nat
  windowMs : Option Nat
  perUser : Option Bool
deriving DecidableEq

/-- The configuration the returned middleware closes over. -/
structure ResolvedRateLimit : Type where
  limit : Nat
  windowMs : Nat
  perUser : Bool
deriving DecidableEq

/-- Model of `createRateLimitMiddleware` option resolution: destructuring defaults
`limit = 100`, `windowMs = 60_000`, `perUser = false`.  The function body
performs no validation of any kind, so construction is total. -/
def createRateLimitMiddleware (o : RateLimitOptions) : ResolvedRateLimit :=
  ⟨o.limit.getD 100, o.windowMs.getD 60000, o.perUser.getD false⟩

/-- The externally visible outcome of one request through the middleware. -/
inductive RLOutcome : Type
  | next (count resetAt : Nat)
  | reject (count resetAt : Nat)
  | skip
deriving DecidableEq

/-- One request through the returned handler: resolve the key (`user:` sub
for `perUser`, else `ip:` address; skip entirely when `perUser` finds no
identity), increment, and send 429 when `count > limit`. -/
def rateLimitHandle (r : ResolvedRateLimit) (w : List (Str × WindowEntry))
    (userSub : Option Str) (ip : Str) (now : Nat) :
    List (Str × WindowEntry) × RLOutcome :=
  match (if r.perUser then userSub.map (fun s => strBytes "user:" ++ s)
    else some (strBytes "ip:" ++ ip)) with
  | none => (w, .skip)
  | some key =>
    let res := increment w key r.windowMs now
    if res.2.1 > r.limit then (res.1, .reject res.2.1 res.2.2)
    else (res.1, .next res.2.1 res.2.2)

/-- Counts returned by `increment` are always at least 1. -/
theorem increment_count_pos (w : List (Str × WindowEntry)) (key : Str)
    (windowMs now : Nat) : 0 < (increment w key windowMs now).2.1 := by
  unfold increment
  cases storeGet w key with
  | none => simp
  | some existing =>
    simp only []
    split <;> simp

/-- C9 counterexample: constructing the middleware with `limit = 0` (an
invalid configuration per the claim) succeeds and returns a functioning
handler — no configuration error is raised at construction time; the
invalid limit instead surfaces as a 429 on the very first request. -/
theorem rate_limit_config_C9_counterexample :
    createRateLimitMiddleware ⟨some 0, some 60000, some false⟩ = ⟨0, 60000, false⟩ ∧
    (rateLimitHandle (createRateLimitMiddleware ⟨some 0, some 60000, some false⟩)
        [] none (strBytes "1.2.3.4") 0).2 = .reject 1 60000 := by
  constructor
  · rfl
  · rfl

/-- C9 (amended). `createRateLimitMiddleware` performs no validation:
construction succeeds for every option object (defaults `limit = 100`,
`windowMs = 60_000` apply only to absent fields), and a resolved
`limit = 0` simply causes every keyed request to be rejected with 429
rather than failing at construction. -/
theorem rate_limit_config_C9_amended (o : RateLimitOptions)
    (h0 : (createRateLimitMiddleware o).limit = 0)
    (w : List (Str × WindowEntry)) (u ip : Str) (now : Nat) :
    createRateLimitMiddleware o =
      ⟨o.limit.getD 100, o.windowMs.getD 60000, o.perUser.getD false⟩ ∧
    (∃ c r, (rateLimitHandle (createRateLimitMiddleware o) w (some u) ip now).2 =
      .reject c r ∧ 0 < c) := by
  refine ⟨rfl, ?_⟩
  unfold rateLimitHandle
  cases hkey : (if (createRateLimitMiddleware o).perUser then
      (some u).map (fun s => strBytes "user:" ++ s)
    else some (strBytes "ip:" ++ ip)) with
  | none =>
    exfalso
    split at hkey <;> simp at hkey
  | some key =>
    have hpos := increment_count_pos w key (createRateLimitMiddleware o).windowMs now
    refine ⟨(increment w key (createRateLimitMiddleware o).windowMs now).2.1,
      (increment w key (createRateLimitMiddleware o).windowMs now).2.2, ?_, hpos⟩
    simp only []
    rw [if_pos (by omega)]

/-- Witness for the amended C9 with `limit := some 0` supplied. -/
theorem rate_limit_config_C9_witness :
    createRateLimitMiddleware ⟨some 0, none, none⟩ =
      ⟨(some 0 : Option Nat).getD 100, (none : Option Nat).getD 60000,
        (none : Option Bool).getD false⟩ ∧
    (∃ c r, (rateLimitHandle (createRateLimitMiddleware ⟨some 0, none, none⟩)
        [] (some (strBytes "u1")) (strBytes "9.9.9.9") 3).2 = .reject c r ∧ 0 < c) :=
  rate_limit_config_C9_amended ⟨some 0, none, none⟩ rfl [] (strBytes "u1")
    (strBytes "9.9.9.9") 3

end Revora
